import Mathlib

/- Shallow embedding of the itinerary-to-calendar converter
`generate_ics_content` of `travel_agent.py`.

Python dates are modelled by their proleptic-Gregorian ordinals
(`date.toordinal`), as integers; `datetime` values only ever reach the
calendar through their `.date()` component, so a start datetime is
represented by the ordinal of its date.  The day-marker regular
expression `Day (\d+)[:\s]+(.*?)(?=Day \d+|$)` (compiled with
`re.DOTALL`) is embedded as an explicit scanner: because the lazy group
`(.*?)` is bounded by a lookahead whose alternative `$` always succeeds
at the end of the text, the regex engine never backtracks into the
greedy pieces `(\d+)` and `[:\s]+`, so maximal-munch scanning is exact.
Without `re.MULTILINE`, `$` matches at the end of the text and just
before a terminal newline; `atDollar` reproduces both positions.  The
digit class of the pattern is restricted to the ASCII digits 0-9
(Python's `\d` additionally accepts other Unicode decimal digits, which
do not occur in the itinerary domain). -/

/-- Character codes accepted by Python's `\s` class for `str` patterns
(also the set stripped by `str.strip`). -/
def pySpaceCodes : List Nat :=
  [9, 10, 11, 12, 13, 28, 29, 30, 31, 32, 133, 160, 5760,
   8192, 8193, 8194, 8195, 8196, 8197, 8198, 8199, 8200, 8201, 8202,
   8232, 8233, 8239, 8287, 12288]

/-- Python whitespace test: `\s` in the day pattern, `str.isspace` for `strip`. -/
def pyIsSpace (c : Char) : Bool := pySpaceCodes.contains c.toNat

/-- ASCII decimal digit, the embedding of the pattern's `\d` class. -/
def isDigitChar (c : Char) : Bool := c.isDigit

/-- Character class `[:\s]` separating the day number from the content. -/
def isSepChar (c : Char) : Bool := c == ':' || pyIsSpace c

/-- Value of Python's `int` on the captured digit string. -/
def digitsToNat (l : List Char) : Nat :=
  l.foldl (fun a c => 10 * a + (c.toNat - 48)) 0

/-- Test for the lookahead alternative `Day \d+`: the suffix starts with
the literal "Day ", then at least one digit. -/
def startsWithDayNum : List Char → Bool
  | c0 :: c1 :: c2 :: c3 :: c4 :: _ =>
    c0 == 'D' && c1 == 'a' && c2 == 'y' && c3 == ' ' && isDigitChar c4
  | _ => false

/-- Test for `$` (no `re.MULTILINE`): at the end of the text, or just
before a newline that ends the text. -/
def atDollar : List Char → Bool
  | [] => true
  | [c] => c == '\n'
  | _ => false

/-- The lookahead `(?=Day \d+|$)` bounding the lazy content group. -/
def lookaheadStop (s : List Char) : Bool := startsWithDayNum s || atDollar s

/-- Lazy capture `(.*?)` bounded by the lookahead: returns the captured
content and the remaining suffix (the position where the match ends). -/
def takeContent : List Char → List Char × List Char
  | [] => ([], [])
  | c :: rest =>
    if lookaheadStop (c :: rest) then ([], c :: rest)
    else
      match takeContent rest with
      | (cs, r) => (c :: cs, r)

/-- Attempt to match `Day (\d+)[:\s]+` at the head of the suffix.  On
success returns the day number (the maximal digit run, as parsed by
`int`) and the suffix following the maximal `[:\s]+` run. -/
def matchDayMarker : List Char → Option (Nat × List Char)
  | c0 :: c1 :: c2 :: c3 :: rest =>
    if c0 == 'D' && c1 == 'a' && c2 == 'y' && c3 == ' ' then
      if (rest.takeWhile isDigitChar).isEmpty then none
      else if ((rest.dropWhile isDigitChar).takeWhile isSepChar).isEmpty then none
      else some (digitsToNat (rest.takeWhile isDigitChar),
                 (rest.dropWhile isDigitChar).dropWhile isSepChar)
    else none
  | _ => none

/-- Fuelled scanner for `day_pattern.findall`: try a match at each
position, emit the two capture groups on success and resume at the end
of the match, otherwise advance one character. -/
def findallFuel : Nat → List Char → List (Nat × List Char)
  | 0, _ => []
  | _ + 1, [] => []
  | fuel + 1, c :: rest =>
    match matchDayMarker (c :: rest) with
    | some (n, tail) =>
      (n, (takeContent tail).1) :: findallFuel fuel (takeContent tail).2
    | none => findallFuel fuel rest

/-- Embedding of `day_pattern.findall(plan_text)` (line 32): every
match consumes at least one character, so `s.length` fuel suffices. -/
def findall (s : List Char) : List (Nat × List Char) := findallFuel s.length s

/-- Embedding of Python's `str.strip()`. -/
def strip (l : List Char) : List Char :=
  ((l.dropWhile pyIsSpace).reverse.dropWhile pyIsSpace).reverse

/-- Gregorian leap-year test, as in CPython's `datetime` module. -/
def isLeap (y : Nat) : Bool := y % 4 == 0 && (y % 100 != 0 || y % 400 == 0)

/-- Number of days in month `m` of year `y`. -/
def daysInMonth (y m : Nat) : Nat :=
  if m == 2 then (if isLeap y then 29 else 28)
  else if m == 4 || m == 6 || m == 9 || m == 11 then 30
  else 31

/-- Number of days in year `y` before month `m`. -/
def daysBeforeMonth (y m : Nat) : Nat :=
  (List.range (m - 1)).foldl (fun a i => a + daysInMonth y (i + 1)) 0

/-- Number of days before January 1 of year `y` (proleptic Gregorian). -/
def daysBeforeYear (y : Nat) : Nat :=
  365 * (y - 1) + (y - 1) / 4 - (y - 1) / 100 + (y - 1) / 400

/-- CPython's `date(y, m, d).toordinal()`. -/
def toOrdinal (y m d : Nat) : Int :=
  ((daysBeforeYear y + daysBeforeMonth y m + d : Nat) : Int)

/-- Ordinal of `date.min = date(1, 1, 1)`. -/
def minOrdinal : Int := 1

/-- Ordinal of `date.max = date(9999, 12, 31)`. -/
def maxOrdinal : Int := 3652059

/-- Magnitude bound on the `days` argument of `timedelta`. -/
def maxTimedeltaDays : Int := 999999999

/-- The `OverflowError` values Python can raise in the converter: the
`timedelta` constructor reports the out-of-range day count in its
message, while datetime addition raises a bare "date value out of
range" carrying no further information. -/
inductive PyError where
  | timedeltaOverflow (days : Int)
  | dateOverflow
deriving DecidableEq

/-- Embedding of `start_date + timedelta(days = k)` (line 46) on date
ordinals: constructing the `timedelta` fails outside the magnitude
bound, and the addition fails when the result leaves the representable
date range. -/
def addDays (d k : Int) : Except PyError Int :=
  if k > maxTimedeltaDays ∨ k < -maxTimedeltaDays then
    .error (.timedeltaOverflow k)
  else if d + k < minOrdinal ∨ d + k > maxOrdinal then
    .error .dateOverflow
  else .ok (d + k)

/-- An iCalendar VEVENT as built by the converter: all dates are
date-only ordinals, the creation timestamp is an opaque clock value. -/
structure CalendarEvent where
  summary : List Char
  description : List Char
  dtstart : Int
  dtend : Int
  dtstamp : Int
deriving DecidableEq

/-- The VCALENDAR document: metadata plus the ordered event list. -/
structure Calendar where
  prodid : List Char
  version : List Char
  events : List CalendarEvent
deriving DecidableEq

/-- The PRODID constant added at line 24. -/
def PRODID : List Char := "-//AI Travel Planner//github.com//".data

/-- The VERSION property value added at line 25. -/
def VERSION2 : List Char := "2.0".data

/-- Summary of the fallback event (line 36). -/
def fallbackSummary : List Char := "旅行行程".data

/-- Summary of a per-day event (line 50): the f-string interpolation of
the day number. -/
def daySummary (n : Nat) : List Char :=
  "第 ".data ++ (Nat.repr n).data ++ " 天行程".data

/-- The per-day loop of lines 44-57: for each extracted pair compute the
event date and build the event; the first overflow aborts the run. -/
def buildEvents (sd st : Int) :
    List (Nat × List Char) → Except PyError (List CalendarEvent)
  | [] => .ok []
  | (n, c) :: rest =>
    match addDays sd ((n : Int) - 1) with
    | .error e => .error e
    | .ok d =>
      match buildEvents sd st rest with
      | .error e => .error e
      | .ok evs => .ok (⟨daySummary n, strip c, d, d, st⟩ :: evs)

/-- Embedding of `generate_ics_content` up to serialization: the
structured calendar document.  `startDate` is the optional start date's
ordinal; `today` is the date `datetime.today()` would yield and `stamp`
the clock value recorded by `datetime.now()` in each `dtstamp`. -/
def generateCalendar (planText : List Char) (startDate : Option Int)
    (today stamp : Int) : Except PyError Calendar :=
  match findall planText with
  | [] =>
    .ok ⟨PRODID, VERSION2,
      [⟨fallbackSummary, planText, startDate.getD today,
        startDate.getD today, stamp⟩]⟩
  | d :: ds =>
    match buildEvents (startDate.getD today) stamp (d :: ds) with
    | .error e => .error e
    | .ok evs => .ok ⟨PRODID, VERSION2, evs⟩

/-- Helper for `fromOrdinal`: locate the month containing a (1-based)
day of the year by walking the month lengths. -/
def mdFromDoyAux (y : Nat) : Nat → Nat → Nat → Nat × Nat
  | 0, m, d => (m, d)
  | k + 1, m, d =>
    if d ≤ daysInMonth y m then (m, d)
    else mdFromDoyAux y k (m + 1) (d - daysInMonth y m)

/-- CPython's `date.fromordinal` decomposition into year, month, day
(used only to render dates in the serialized document). -/
def fromOrdinal (o : Int) : Nat × Nat × Nat :=
  let n : Nat := (o - 1).toNat
  let n400 := n / 146097
  let r1 := n % 146097
  let n100 := r1 / 36524
  let r2 := r1 % 36524
  let n4 := r2 / 1461
  let r3 := r2 % 1461
  let n1 := r3 / 365
  let r4 := r3 % 365
  let y := n400 * 400 + n100 * 100 + n4 * 4 + n1 + 1
  if n1 = 4 ∨ n100 = 4 then (y - 1, 12, 31)
  else (y, (mdFromDoyAux y 12 1 (r4 + 1)).1, (mdFromDoyAux y 12 1 (r4 + 1)).2)

/-- Zero-padded decimal rendering. -/
def padNum (w n : Nat) : List Char :=
  List.replicate (w - (Nat.repr n).length) '0' ++ (Nat.repr n).data

/-- The `YYYYMMDD` rendering of a date-only iCalendar value. -/
def dateDigits (o : Int) : List Char :=
  padNum 4 (fromOrdinal o).1 ++ padNum 2 (fromOrdinal o).2.1 ++
  padNum 2 (fromOrdinal o).2.2

/-- Modelled from the spec: the external icalendar library's rendering
of one VEVENT (section 6 of the spec); property layout per RFC 5545,
without line folding or text escaping, the timestamp rendered as the
opaque clock value. -/
def eventIcs (e : CalendarEvent) : List Char :=
  "BEGIN:VEVENT\r\nSUMMARY:".data ++ e.summary ++
  "\r\nDESCRIPTION:".data ++ e.description ++
  "\r\nDTSTART;VALUE=DATE:".data ++ dateDigits e.dtstart ++
  "\r\nDTEND;VALUE=DATE:".data ++ dateDigits e.dtend ++
  "\r\nDTSTAMP:".data ++ (toString e.dtstamp).data ++
  "\r\nEND:VEVENT\r\n".data

/-- Modelled from the spec: `cal.to_ical()` of the external icalendar
library (section 6 of the spec) - the VCALENDAR container with its
PRODID and VERSION properties followed by one VEVENT per event. -/
def toIcal (cal : Calendar) : List Char :=
  "BEGIN:VCALENDAR\r\nPRODID:".data ++ cal.prodid ++
  "\r\nVERSION:".data ++ cal.version ++ "\r\n".data ++
  cal.events.foldr (fun e acc => eventIcs e ++ acc) [] ++
  "END:VCALENDAR\r\n".data

/-- The full converter `generate_ics_content`: build the document, then
serialize it to bytes. -/
def generate_ics_content (planText : List Char) (startDate : Option Int)
    (today stamp : Int) : Except PyError (List Char) :=
  match generateCalendar planText startDate today stamp with
  | .error e => .error e
  | .ok cal => .ok (toIcal cal)

/-- The event a successful run builds for an extracted pair. -/
def mkDayEvent (sd st : Int) (p : Nat × List Char) : CalendarEvent :=
  ⟨daySummary p.1, strip p.2, sd + ((p.1 : Int) - 1),
   sd + ((p.1 : Int) - 1), st⟩

/-- Erase the creation timestamp of an event. -/
def stripStampEv (e : CalendarEvent) : CalendarEvent :=
  ⟨e.summary, e.description, e.dtstart, e.dtend, 0⟩

/-- Erase every creation timestamp of a document. -/
def normStamps (cal : Calendar) : Calendar :=
  ⟨cal.prodid, cal.version, cal.events.map stripStampEv⟩

theorem takeContent_cons_stop {c : Char} {rest : List Char}
    (h : lookaheadStop (c :: rest) = true) :
    takeContent (c :: rest) = ([], c :: rest) := by
  simp [takeContent, h]

theorem takeContent_cons_go {c : Char} {rest : List Char}
    (h : lookaheadStop (c :: rest) = false) :
    takeContent (c :: rest) =
      (c :: (takeContent rest).1, (takeContent rest).2) := by
  rcases hp : takeContent rest with ⟨cs, r⟩
  simp [takeContent, h, hp]

theorem takeContent_append :
    ∀ s : List Char, (takeContent s).1 ++ (takeContent s).2 = s := by
  intro s
  induction s with
  | nil => rfl
  | cons c rest ih =>
    cases h : lookaheadStop (c :: rest) with
    | true => rw [takeContent_cons_stop h]; rfl
    | false => rw [takeContent_cons_go h]; simp [ih]

theorem takeContent_snd_length :
    ∀ s : List Char, (takeContent s).2.length ≤ s.length := by
  intro s
  induction s with
  | nil => simp [takeContent]
  | cons c rest ih =>
    cases h : lookaheadStop (c :: rest) with
    | true => rw [takeContent_cons_stop h]
    | false =>
      rw [takeContent_cons_go h]
      exact Nat.le_succ_of_le ih

theorem takeContent_no_stop :
    ∀ (s : List Char) (i : Nat), i < (takeContent s).1.length →
      lookaheadStop (List.drop i (takeContent s).1 ++ (takeContent s).2)
        = false := by
  intro s
  induction s with
  | nil => intro i hi; simp [takeContent] at hi
  | cons c rest ih =>
    intro i hi
    cases h : lookaheadStop (c :: rest) with
    | true => rw [takeContent_cons_stop h] at hi; simp at hi
    | false =>
      rw [takeContent_cons_go h] at hi ⊢
      cases i with
      | zero =>
        simpa only [List.drop_zero, List.cons_append,
          takeContent_append rest] using h
      | succ i =>
        simp only [List.drop_succ_cons]
        exact ih i (by simpa using Nat.lt_of_succ_lt_succ hi)

theorem startsWithDayNum_append {l : List Char} (r : List Char)
    (h : startsWithDayNum l = true) : startsWithDayNum (l ++ r) = true := by
  rcases l with _ | ⟨c0, _ | ⟨c1, _ | ⟨c2, _ | ⟨c3, _ | ⟨c4, t⟩⟩⟩⟩⟩ <;>
    simp_all [startsWithDayNum]

theorem startsWith_of_lookahead_false {s : List Char}
    (h : lookaheadStop s = false) : startsWithDayNum s = false := by
  simp only [lookaheadStop, Bool.or_eq_false_iff] at h
  exact h.1

theorem matchDayMarker_some_length {s tail : List Char} {n : Nat}
    (h : matchDayMarker s = some (n, tail)) : tail.length + 4 ≤ s.length := by
  rcases s with _ | ⟨c0, _ | ⟨c1, _ | ⟨c2, _ | ⟨c3, rest⟩⟩⟩⟩ <;>
    simp only [matchDayMarker] at h
  · exact absurd h (by simp)
  · exact absurd h (by simp)
  · exact absurd h (by simp)
  · exact absurd h (by simp)
  · split_ifs at h with h1 h2 h3
    · injection h with h'
      have h4 := congrArg Prod.snd h'
      simp only at h4
      have h5 : tail.length ≤ rest.length := by
        calc tail.length
            = (((rest.dropWhile isDigitChar).dropWhile isSepChar)).length := by
              rw [h4]
          _ ≤ (rest.dropWhile isDigitChar).length :=
              (List.dropWhile_sublist _).length_le
          _ ≤ rest.length := (List.dropWhile_sublist _).length_le
      simp only [List.length_cons]
      omega

theorem findallFuel_nil : ∀ f, findallFuel f [] = [] := by
  intro f; cases f <;> rfl

theorem findallFuel_cons_none {c : Char} {rest : List Char} (f : Nat)
    (h : matchDayMarker (c :: rest) = none) :
    findallFuel (f + 1) (c :: rest) = findallFuel f rest := by
  simp [findallFuel, h]

theorem findallFuel_cons_some {c : Char} {rest tail : List Char} {n : Nat}
    (f : Nat) (h : matchDayMarker (c :: rest) = some (n, tail)) :
    findallFuel (f + 1) (c :: rest) =
      (n, (takeContent tail).1) :: findallFuel f (takeContent tail).2 := by
  simp [findallFuel, h]

theorem findallFuel_congr :
    ∀ (k : Nat) (s : List Char), s.length ≤ k →
      ∀ f₁ f₂, s.length ≤ f₁ → s.length ≤ f₂ →
        findallFuel f₁ s = findallFuel f₂ s := by
  intro k
  induction k with
  | zero =>
    intro s hs f₁ f₂ _ _
    have : s = [] := List.length_eq_zero.mp (Nat.le_zero.mp hs)
    subst this
    rw [findallFuel_nil, findallFuel_nil]
  | succ k ih =>
    intro s hs f₁ f₂ h₁ h₂
    match s with
    | [] => rw [findallFuel_nil, findallFuel_nil]
    | c :: rest =>
      simp only [List.length_cons] at hs h₁ h₂
      obtain ⟨g₁, rfl⟩ : ∃ g, f₁ = g + 1 := ⟨f₁ - 1, by omega⟩
      obtain ⟨g₂, rfl⟩ : ∃ g, f₂ = g + 1 := ⟨f₂ - 1, by omega⟩
      cases hm : matchDayMarker (c :: rest) with
      | none =>
        rw [findallFuel_cons_none _ hm, findallFuel_cons_none _ hm]
        exact ih rest (by omega) g₁ g₂ (by omega) (by omega)
      | some p =>
        obtain ⟨n, tail⟩ := p
        rw [findallFuel_cons_some _ hm, findallFuel_cons_some _ hm]
        have hlen : tail.length + 4 ≤ rest.length + 1 :=
          matchDayMarker_some_length hm
        have hlen2 : (takeContent tail).2.length ≤ tail.length :=
          takeContent_snd_length tail
        exact congrArg _
          (ih (takeContent tail).2 (by omega) g₁ g₂ (by omega) (by omega))

theorem findall_cons_none {c : Char} {rest : List Char}
    (h : matchDayMarker (c :: rest) = none) :
    findall (c :: rest) = findall rest := by
  show findallFuel (rest.length + 1) (c :: rest) = findall rest
  rw [findallFuel_cons_none _ h]
  rfl

theorem findall_cons_some {c : Char} {rest tail : List Char} {n : Nat}
    (h : matchDayMarker (c :: rest) = some (n, tail)) :
    findall (c :: rest) =
      (n, (takeContent tail).1) :: findall (takeContent tail).2 := by
  show findallFuel (rest.length + 1) (c :: rest) = _
  rw [findallFuel_cons_some _ h]
  have hlen : tail.length + 4 ≤ rest.length + 1 :=
    matchDayMarker_some_length h
  have hlen2 : (takeContent tail).2.length ≤ tail.length :=
    takeContent_snd_length tail
  exact congrArg _
    (findallFuel_congr rest.length (takeContent tail).2 (by omega) _ _
      (by omega) (by omega))

theorem addDays_ok {a b d : Int} (h : addDays a b = .ok d) : d = a + b := by
  unfold addDays at h
  split_ifs at h
  injection h with h'
  exact h'.symm

theorem buildEvents_ok {sd st : Int} :
    ∀ {l : List (Nat × List Char)} {evs : List CalendarEvent},
      buildEvents sd st l = .ok evs → evs = l.map (mkDayEvent sd st) := by
  intro l
  induction l with
  | nil =>
    intro evs h
    simp only [buildEvents, Except.ok.injEq] at h
    simp [h.symm]
  | cons q rest ih =>
    intro evs h
    obtain ⟨n, c⟩ := q
    simp only [buildEvents] at h
    split at h
    · exact absurd h (by simp)
    · next d heq =>
      split at h
      · exact absurd h (by simp)
      · next evs' heq2 =>
        injection h with h'
        rw [← h', ih heq2, addDays_ok heq]
        simp [mkDayEvent]

theorem buildEvents_error_iff (sd st : Int) :
    ∀ l : List (Nat × List Char),
      (∃ e, buildEvents sd st l = .error e) ↔
        ∃ p, p ∈ l ∧ ∃ e, addDays sd ((p.1 : Int) - 1) = .error e := by
  intro l
  induction l with
  | nil => simp [buildEvents]
  | cons q rest ih =>
    obtain ⟨n, c⟩ := q
    simp only [buildEvents]
    cases ha : addDays sd ((n : Int) - 1) with
    | error e =>
      simp only [ha]
      constructor
      · intro _
        exact ⟨(n, c), List.mem_cons_self _ _, e, ha⟩
      · intro _
        exact ⟨e, rfl⟩
    | ok d =>
      simp only [ha]
      cases hb : buildEvents sd st rest with
      | error e2 =>
        simp only [hb]
        constructor
        · intro _
          obtain ⟨p, hp, he⟩ := ih.mp ⟨e2, hb⟩
          exact ⟨p, List.mem_cons_of_mem _ hp, he⟩
        · intro _
          exact ⟨e2, rfl⟩
      | ok evs =>
        simp only [hb]
        constructor
        · rintro ⟨e, he⟩
          exact absurd he (by simp)
        · rintro ⟨p, hp, e, he⟩
          rcases List.mem_cons.mp hp with rfl | hp'
          · rw [ha] at he
            exact absurd he (by simp)
          · obtain ⟨e', he'⟩ := ih.mpr ⟨p, hp', e, he⟩
            rw [hb] at he'
            exact absurd he' (by simp)

theorem addDays_error_iff {a b : Int} (hb : -1 ≤ b) (h1 : minOrdinal ≤ a)
    (h2 : a ≤ maxOrdinal) :
    (∃ e, addDays a b = .error e) ↔
      (a + b < minOrdinal ∨ maxOrdinal < a + b) := by
  unfold addDays
  split_ifs with hA hB
  · constructor
    · intro _
      simp only [minOrdinal, maxOrdinal, maxTimedeltaDays] at h1 h2 hA ⊢
      omega
    · intro _
      exact ⟨PyError.timedeltaOverflow b, rfl⟩
  · constructor
    · intro _
      simp only [minOrdinal, maxOrdinal] at hB ⊢
      omega
    · intro _
      exact ⟨PyError.dateOverflow, rfl⟩
  · constructor
    · rintro ⟨e, he⟩
      exact absurd he (by simp)
    · intro hcon
      simp only [minOrdinal, maxOrdinal] at hB hcon
      omega

theorem generateCalendar_nil {t : List Char} {sd : Option Int}
    {today st : Int} (h : findall t = []) :
    generateCalendar t sd today st =
      .ok ⟨PRODID, VERSION2,
        [⟨fallbackSummary, t, sd.getD today, sd.getD today, st⟩]⟩ := by
  unfold generateCalendar
  rw [h]

theorem generateCalendar_cons {t : List Char} {sd : Option Int}
    {today st : Int} {d : Nat × List Char} {ds : List (Nat × List Char)}
    (h : findall t = d :: ds) :
    generateCalendar t sd today st =
      match buildEvents (sd.getD today) st (d :: ds) with
      | .error e => .error e
      | .ok evs => .ok ⟨PRODID, VERSION2, evs⟩ := by
  unfold generateCalendar
  rw [h]

theorem generateCalendar_ok_cons {t : List Char} {sd : Option Int}
    {today st : Int} {d : Nat × List Char} {ds : List (Nat × List Char)}
    {cal : Calendar} (hf : findall t = d :: ds)
    (h : generateCalendar t sd today st = .ok cal) :
    buildEvents (sd.getD today) st (d :: ds) = .ok cal.events ∧
      cal = ⟨PRODID, VERSION2, cal.events⟩ := by
  rw [generateCalendar_cons hf] at h
  cases hb : buildEvents (sd.getD today) st (d :: ds) with
  | error e =>
    rw [hb] at h
    exact absurd h (by simp)
  | ok evs =>
    rw [hb] at h
    simp only [Except.ok.injEq] at h
    subst h
    exact ⟨rfl, rfl⟩

theorem findall_eq_nil_of_no_marker :
    ∀ t : List Char,
      (∀ i, i < t.length → matchDayMarker (List.drop i t) = none) →
      findall t = [] := by
  intro t
  induction t with
  | nil => intro _; rfl
  | cons c rest ih =>
    intro h
    have h0 : matchDayMarker (c :: rest) = none := by
      have := h 0 (by simp)
      simpa using this
    rw [findall_cons_none h0]
    apply ih
    intro i hi
    have := h (i + 1) (by simp only [List.length_cons]; omega)
    simpa [List.drop_succ_cons] using this

theorem findall_append_of_no_marker :
    ∀ pre rest : List Char,
      (∀ i, i < pre.length →
        matchDayMarker (List.drop i (pre ++ rest)) = none) →
      findall (pre ++ rest) = findall rest := by
  intro pre
  induction pre with
  | nil => intro rest _; rfl
  | cons c pre' ih =>
    intro rest h
    have h0 : matchDayMarker (c :: (pre' ++ rest)) = none := by
      have := h 0 (by simp)
      simpa using this
    rw [List.cons_append, findall_cons_none h0]
    apply ih
    intro i hi
    have := h (i + 1) (by simp only [List.length_cons]; omega)
    simpa [List.cons_append, List.drop_succ_cons] using this

theorem findall_content_no_marker :
    ∀ (k : Nat) (t : List Char), t.length ≤ k →
      ∀ (n : Nat) (c : List Char), (n, c) ∈ findall t →
        ∀ i, startsWithDayNum (List.drop i c) = false := by
  intro k
  induction k with
  | zero =>
    intro t ht n c hmem i
    have : t = [] := List.length_eq_zero.mp (Nat.le_zero.mp ht)
    subst this
    simp [findall, findallFuel] at hmem
  | succ k ih =>
    intro t ht n c hmem i
    match t with
    | [] => simp [findall, findallFuel] at hmem
    | c0 :: rest =>
      simp only [List.length_cons] at ht
      cases hm : matchDayMarker (c0 :: rest) with
      | none =>
        rw [findall_cons_none hm] at hmem
        exact ih rest (by omega) n c hmem i
      | some p =>
        obtain ⟨m, tail⟩ := p
        rw [findall_cons_some hm] at hmem
        rcases List.mem_cons.mp hmem with heq | htail
        · injection heq with hn hc
          subst hc
          by_cases hi : i < (takeContent tail).1.length
          · have hs := startsWith_of_lookahead_false
              (takeContent_no_stop tail i hi)
            cases hcon : startsWithDayNum (List.drop i (takeContent tail).1)
              with
            | false => rfl
            | true =>
              have happ := startsWithDayNum_append (takeContent tail).2 hcon
              rw [hs] at happ
              exact Bool.noConfusion happ
          · push_neg at hi
            rw [List.drop_eq_nil_of_le hi]
            rfl
        · have hlen : tail.length + 4 ≤ rest.length + 1 :=
            matchDayMarker_some_length hm
          have hlen2 : (takeContent tail).2.length ≤ tail.length :=
            takeContent_snd_length tail
          exact ih (takeContent tail).2 (by omega) n c htail i

theorem strip_decomp (l : List Char) :
    ∃ pre post, l = pre ++ strip l ++ post ∧
      pre.all pyIsSpace = true ∧ post.all pyIsSpace = true := by
  refine ⟨l.takeWhile pyIsSpace,
    ((l.dropWhile pyIsSpace).reverse.takeWhile pyIsSpace).reverse, ?_,
    List.all_takeWhile, ?_⟩
  · conv_lhs => rw [← List.takeWhile_append_dropWhile pyIsSpace l]
    rw [List.append_assoc]
    congr 1
    unfold strip
    conv_lhs =>
      rw [← List.reverse_reverse (l.dropWhile pyIsSpace),
        ← List.takeWhile_append_dropWhile pyIsSpace
          (l.dropWhile pyIsSpace).reverse,
        List.reverse_append]
  · rw [List.all_reverse]
    exact List.all_takeWhile

theorem buildEvents_stamp (sd st st' : Int) :
    ∀ l, Except.map (List.map stripStampEv) (buildEvents sd st l) =
      Except.map (List.map stripStampEv) (buildEvents sd st' l) := by
  intro l
  induction l with
  | nil => rfl
  | cons q rest ih =>
    obtain ⟨n, c⟩ := q
    simp only [buildEvents]
    cases ha : addDays sd ((n : Int) - 1) with
    | error e => rfl
    | ok d =>
      cases hb : buildEvents sd st rest with
      | error e =>
        cases hb' : buildEvents sd st' rest with
        | error e' =>
          rw [hb, hb'] at ih
          simpa [Except.map] using ih
        | ok evs' =>
          rw [hb, hb'] at ih
          simp [Except.map] at ih
      | ok evs =>
        cases hb' : buildEvents sd st' rest with
        | error e' =>
          rw [hb, hb'] at ih
          simp [Except.map] at ih
        | ok evs' =>
          rw [hb, hb'] at ih
          simp only [Except.map, Except.ok.injEq] at ih
          simp only [Except.map, Except.ok.injEq, List.map_cons]
          rw [ih]
          rfl

theorem generateCalendar_stamp (t : List Char) (sd : Option Int)
    (today st st' : Int) :
    Except.map normStamps (generateCalendar t sd today st) =
      Except.map normStamps (generateCalendar t sd today st') := by
  cases hf : findall t with
  | nil =>
    rw [generateCalendar_nil hf, generateCalendar_nil hf]
    simp [Except.map, normStamps, stripStampEv]
  | cons d ds =>
    rw [generateCalendar_cons hf, generateCalendar_cons hf]
    have hst := buildEvents_stamp (sd.getD today) st st' (d :: ds)
    cases hb : buildEvents (sd.getD today) st (d :: ds) with
    | error e =>
      cases hb' : buildEvents (sd.getD today) st' (d :: ds) with
      | error e' =>
        rw [hb, hb'] at hst
        simp only [Except.map] at hst
        simpa [Except.map] using hst
      | ok evs' =>
        rw [hb, hb'] at hst
        simp [Except.map] at hst
    | ok evs =>
      cases hb' : buildEvents (sd.getD today) st' (d :: ds) with
      | error e' =>
        rw [hb, hb'] at hst
        simp [Except.map] at hst
      | ok evs' =>
        rw [hb, hb'] at hst
        simp only [Except.map, Except.ok.injEq] at hst
        simp only [Except.map, Except.ok.injEq, normStamps]
        simp [hst]

theorem maxOrdinal_eq : toOrdinal 9999 12 31 = maxOrdinal := by decide

theorem findall_sanity :
    findall "Day 1: Visit museum\nDay 2: Beach".data =
      [(1, "Visit museum\n".data), (2, "Beach".data)] := by decide

/-- Claim C1: for the input "Day 1: Visit museum\nDay 2: Beach" with start
date 2024-01-01, the converter returns a document with exactly two events:
the first dated 2024-01-01 with description "Visit museum", the second
dated 2024-01-02 with description "Beach". -/
theorem claim_C1 (today st : Int) :
    generateCalendar "Day 1: Visit museum\nDay 2: Beach".data
        (some (toOrdinal 2024 1 1)) today st =
      .ok ⟨PRODID, VERSION2,
        [⟨daySummary 1, "Visit museum".data, toOrdinal 2024 1 1,
          toOrdinal 2024 1 1, st⟩,
         ⟨daySummary 2, "Beach".data, toOrdinal 2024 1 2,
          toOrdinal 2024 1 2, st⟩]⟩ := by
  rfl

/-- Claim C2: when the day-marker pattern matches nowhere in the input,
the converter produces exactly one event, whose start and end dates both
equal the effective start date (the supplied one, or the current date when
none is supplied) and whose description is the full input text. -/
theorem claim_C2 (t : List Char) (sd : Option Int) (today st : Int)
    (h : ∀ i, i < t.length → matchDayMarker (List.drop i t) = none) :
    generateCalendar t sd today st =
      .ok ⟨PRODID, VERSION2,
        [⟨fallbackSummary, t, sd.getD today, sd.getD today, st⟩]⟩ :=
  generateCalendar_nil (findall_eq_nil_of_no_marker t h)

/-- Witness for claim C2 at a concrete marker-free input with no supplied
start date. -/
theorem claim_C2_witness :
    generateCalendar "hello world".data none 42 7 =
      .ok ⟨PRODID, VERSION2,
        [⟨fallbackSummary, "hello world".data, 42, 42, 7⟩]⟩ :=
  claim_C2 "hello world".data none 42 7 (by decide)

/-- Claim C4: every event of any document the converter returns has its
start date equal to its end date - all events are single-day, on both the
fallback path and the per-day path. -/
theorem claim_C4 (t : List Char) (sd : Option Int) (today st : Int)
    (cal : Calendar) (h : generateCalendar t sd today st = .ok cal) :
    ∀ e ∈ cal.events, e.dtstart = e.dtend := by
  cases hf : findall t with
  | nil =>
    rw [generateCalendar_nil hf] at h
    simp only [Except.ok.injEq] at h
    subst h
    intro e he
    simp only [List.mem_singleton] at he
    subst he
    rfl
  | cons d ds =>
    obtain ⟨hb, _⟩ := generateCalendar_ok_cons hf h
    intro e he
    rw [buildEvents_ok hb] at he
    obtain ⟨p, _, rfl⟩ := List.mem_map.mp he
    rfl

/-- Witness for claim C4 at a concrete one-day input. -/
theorem claim_C4_witness :
    (⟨daySummary 1, "x".data, 5, 5, 0⟩ : CalendarEvent).dtstart =
      (⟨daySummary 1, "x".data, 5, 5, 0⟩ : CalendarEvent).dtend :=
  claim_C4 "Day 1: x".data (some 5) 0 0
    ⟨PRODID, VERSION2, [⟨daySummary 1, "x".data, 5, 5, 0⟩]⟩ (by rfl)
    ⟨daySummary 1, "x".data, 5, 5, 0⟩ (by simp)

/-- Claim C3: each extracted day segment with number N yields an event
dated start + (N - 1) days, a function of N alone and not of the
segment's position; a day number below 1 such as "Day 0" is accepted,
dating the event strictly before the start date. -/
theorem claim_C3 :
    (∀ (t : List Char) (d today st : Int) (cal : Calendar),
        generateCalendar t (some d) today st = .ok cal →
        findall t ≠ [] →
        cal.events.map (fun e => e.dtstart) =
          (findall t).map (fun p => d + ((p.1 : Int) - 1))) ∧
      (generateCalendar "Day 0: Arrive".data (some (toOrdinal 2024 1 5)) 0 0
          = .ok ⟨PRODID, VERSION2,
              [⟨daySummary 0, "Arrive".data, toOrdinal 2024 1 4,
                toOrdinal 2024 1 4, 0⟩]⟩ ∧
        toOrdinal 2024 1 4 < toOrdinal 2024 1 5) := by
  constructor
  · intro t d today st cal h hne
    cases hf : findall t with
    | nil => exact absurd hf hne
    | cons q ds =>
      obtain ⟨hb, _⟩ := generateCalendar_ok_cons hf h
      rw [buildEvents_ok hb]
      simp [List.map_map, mkDayEvent, Function.comp]
  · exact ⟨by rfl, by decide⟩

/-- Witness for claim C3 at a concrete input whose only marker is
"Day 3". -/
theorem claim_C3_witness :
    (⟨PRODID, VERSION2, [⟨daySummary 3, "x".data, 102, 102, 0⟩]⟩ :
        Calendar).events.map (fun e => e.dtstart) =
      (findall "Day 3: x".data).map
        (fun p => (100 : Int) + ((p.1 : Int) - 1)) :=
  claim_C3.1 "Day 3: x".data 100 0 0
    ⟨PRODID, VERSION2, [⟨daySummary 3, "x".data, 102, 102, 0⟩]⟩ (by rfl)
    (by decide)

/-- Claim C5: events are emitted in the order the markers occur in the
text, with no sorting and no deduplication: the event list is the
in-order image of the extracted pair list, and two "Day 1" blocks yield
two distinct events both dated at the start date. -/
theorem claim_C5 :
    (∀ (t : List Char) (sd : Option Int) (today st : Int) (cal : Calendar),
        generateCalendar t sd today st = .ok cal → findall t ≠ [] →
        cal.events = (findall t).map (mkDayEvent (sd.getD today) st)) ∧
      (generateCalendar "Day 1: a\nDay 1: b".data (some 1000) 0 7 =
          .ok ⟨PRODID, VERSION2,
            [⟨daySummary 1, "a".data, 1000, 1000, 7⟩,
             ⟨daySummary 1, "b".data, 1000, 1000, 7⟩]⟩ ∧
        (⟨daySummary 1, "a".data, 1000, 1000, 7⟩ : CalendarEvent) ≠
          ⟨daySummary 1, "b".data, 1000, 1000, 7⟩) := by
  constructor
  · intro t sd today st cal h hne
    cases hf : findall t with
    | nil => exact absurd hf hne
    | cons q ds =>
      obtain ⟨hb, _⟩ := generateCalendar_ok_cons hf h
      rw [buildEvents_ok hb]
  · exact ⟨by rfl, by decide⟩

/-- Witness for claim C5 at the duplicated-day input. -/
theorem claim_C5_witness :
    (⟨PRODID, VERSION2,
        [⟨daySummary 1, "a".data, 1000, 1000, 7⟩,
         ⟨daySummary 1, "b".data, 1000, 1000, 7⟩]⟩ : Calendar).events =
      (findall "Day 1: a\nDay 1: b".data).map (mkDayEvent 1000 7) :=
  claim_C5.1 "Day 1: a\nDay 1: b".data (some 1000) 0 7
    ⟨PRODID, VERSION2,
      [⟨daySummary 1, "a".data, 1000, 1000, 7⟩,
       ⟨daySummary 1, "b".data, 1000, 1000, 7⟩]⟩ (by rfl) (by decide)

/-- Claim C7 counterexample: on a marker-free input with surrounding
whitespace, the fallback event's description is the untrimmed full text,
not the trimmed content the claim requires of every event. -/
theorem claim_C7_refutation :
    generateCalendar "  hi  ".data (some 500) 0 0 =
      .ok ⟨PRODID, VERSION2,
        [⟨fallbackSummary, "  hi  ".data, 500, 500, 0⟩]⟩ ∧
      strip "  hi  ".data ≠ "  hi  ".data :=
  ⟨by rfl, by decide⟩

/-- Claim C7 (amended): every per-day event's description is the segment
content with leading and trailing whitespace removed, and trimming only
ever removes a whitespace prefix and suffix, leaving the interior
unchanged; the fallback event's description, however, is the full input
text, untrimmed. -/
theorem claim_C7 :
    (∀ (t : List Char) (sd : Option Int) (today st : Int) (cal : Calendar),
        generateCalendar t sd today st = .ok cal → findall t ≠ [] →
        cal.events.map (fun e => e.description) =
          (findall t).map (fun p => strip p.2)) ∧
      (∀ (t : List Char) (sd : Option Int) (today st : Int) (cal : Calendar),
        generateCalendar t sd today st = .ok cal → findall t = [] →
        cal.events.map (fun e => e.description) = [t]) ∧
      (∀ l : List Char, ∃ pre post, l = pre ++ strip l ++ post ∧
        pre.all pyIsSpace = true ∧ post.all pyIsSpace = true) := by
  refine ⟨?_, ?_, strip_decomp⟩
  · intro t sd today st cal h hne
    cases hf : findall t with
    | nil => exact absurd hf hne
    | cons q ds =>
      obtain ⟨hb, _⟩ := generateCalendar_ok_cons hf h
      rw [buildEvents_ok hb]
      simp [List.map_map, mkDayEvent, Function.comp]
  · intro t sd today st cal h hnil
    rw [generateCalendar_nil hnil] at h
    simp only [Except.ok.injEq] at h
    subst h
    rfl

/-- Witness for claim C7 at a concrete input with padded content. -/
theorem claim_C7_witness :
    (⟨PRODID, VERSION2, [⟨daySummary 1, "a b".data, 5, 5, 0⟩]⟩ :
        Calendar).events.map (fun e => e.description) =
      (findall "Day 1: a b ".data).map (fun p => strip p.2) :=
  claim_C7.1 "Day 1: a b ".data (some 5) 0 0
    ⟨PRODID, VERSION2, [⟨daySummary 1, "a b".data, 5, 5, 0⟩]⟩ (by rfl)
    (by decide)

/-- Claim C9 (implicit): text preceding the first day marker is silently
discarded - when the input contains at least one marker, prefixing
marker-free text changes nothing in the resulting document, so the
preamble appears in no description and influences no date. -/
theorem claim_C9 (pre rest : List Char) (sd : Option Int) (today st : Int)
    (hpre : ∀ i, i < pre.length →
      matchDayMarker (List.drop i (pre ++ rest)) = none)
    (hmark : findall rest ≠ []) :
    generateCalendar (pre ++ rest) sd today st =
      generateCalendar rest sd today st := by
  have hf := findall_append_of_no_marker pre rest hpre
  cases hr : findall rest with
  | nil => exact absurd hr hmark
  | cons d ds =>
    rw [generateCalendar_cons (hf.trans hr), generateCalendar_cons hr]

/-- Witness for claim C9: an intro line before "Day 1" is dropped. -/
theorem claim_C9_witness :
    generateCalendar ("Intro\n".data ++ "Day 1: x".data) (some 9) 0 0 =
      generateCalendar "Day 1: x".data (some 9) 0 0 :=
  claim_C9 "Intro\n".data "Day 1: x".data (some 9) 0 0 (by decide)
    (by decide)

/-- Claim C10 (implicit): a day marker is recognized at any position, not
only at line starts (the "Day 3:" inside "D-Day 3: x" starts a segment),
and captured content stops at the next "Day "-plus-digit occurrence, so
no extracted content starts with such a pattern at any offset. -/
theorem claim_C10 :
    findall "D-Day 3: x".data = [(3, "x".data)] ∧
      ∀ (t : List Char) (n : Nat) (c : List Char), (n, c) ∈ findall t →
        ∀ i, startsWithDayNum (List.drop i c) = false :=
  ⟨by decide,
   fun t n c hmem i => findall_content_no_marker t.length t le_rfl n c hmem i⟩

/-- Witness for claim C10 at a concrete extracted segment. -/
theorem claim_C10_witness :
    ((2, "x".data) ∈ findall "Day 2: x".data) ∧
      startsWithDayNum (List.drop 0 "x".data) = false :=
  ⟨by decide, claim_C10.2 "Day 2: x".data 2 "x".data (by decide) 0⟩

/-- Claim C6 counterexample: two inputs whose offending day numbers
differ (3000000 versus 4000000) make the converter raise the identical
bare date-overflow error, so the raised error does not identify the
offending day number. -/
theorem claim_C6_refutation :
    (findall "Day 3000000: x".data).map (fun p => p.1) = [3000000] ∧
      (findall "Day 4000000: x".data).map (fun p => p.1) = [4000000] ∧
      generateCalendar "Day 3000000: x".data
          (some (toOrdinal 2024 1 1)) 0 0 = .error PyError.dateOverflow ∧
      generateCalendar "Day 4000000: x".data
          (some (toOrdinal 2024 1 1)) 0 0 = .error PyError.dateOverflow :=
  ⟨by rfl, by rfl, by rfl, by rfl⟩

/-- Claim C6 (amended): with a valid start date the converter never fails
on marker-free or empty input, and fails exactly when the computed date
of some extracted day, start + (day_number - 1) days, leaves the
representable date range; the raised error, however, does not identify
the offending day number - distinct overflowing day numbers produce the
identical error value. -/
theorem claim_C6 (t : List Char) (sd : Option Int) (today st : Int)
    (h1 : minOrdinal ≤ sd.getD today) (h2 : sd.getD today ≤ maxOrdinal) :
    ((∃ e, generateCalendar t sd today st = .error e) ↔
      ∃ p, p ∈ findall t ∧
        (sd.getD today + ((p.1 : Int) - 1) < minOrdinal ∨
          maxOrdinal < sd.getD today + ((p.1 : Int) - 1))) ∧
      generateCalendar "Day 3000000: x".data
          (some (toOrdinal 2024 1 1)) 0 0 =
        generateCalendar "Day 4000000: x".data
          (some (toOrdinal 2024 1 1)) 0 0 := by
  constructor
  · cases hf : findall t with
    | nil =>
      rw [generateCalendar_nil hf]
      constructor
      · rintro ⟨e, he⟩
        exact absurd he (by simp)
      · rintro ⟨p, hp, _⟩
        simp at hp
    | cons d ds =>
      rw [generateCalendar_cons hf]
      constructor
      · rintro ⟨e, he⟩
        cases hb : buildEvents (sd.getD today) st (d :: ds) with
        | error e' =>
          obtain ⟨p, hp, e2, he2⟩ :=
            (buildEvents_error_iff (sd.getD today) st (d :: ds)).mp ⟨e', hb⟩
          refine ⟨p, hp, ?_⟩
          exact (addDays_error_iff (by omega) h1 h2).mp ⟨e2, he2⟩
        | ok evs =>
          rw [hb] at he
          exact absurd he (by simp)
      · rintro ⟨p, hp, hout⟩
        obtain ⟨e2, he2⟩ := (addDays_error_iff (b := (p.1 : Int) - 1)
          (by omega) h1 h2).mpr hout
        obtain ⟨e', hb⟩ :=
          (buildEvents_error_iff (sd.getD today) st (d :: ds)).mpr
            ⟨p, hp, e2, he2⟩
        refine ⟨e', ?_⟩
        rw [hb]
  · rfl

/-- Witness for claim C6 at a concrete overflowing input. -/
theorem claim_C6_witness :
    ((∃ e, generateCalendar "Day 4000000: x".data
        (some (toOrdinal 2024 1 1)) 0 0 = .error e) ↔
      ∃ p, p ∈ findall "Day 4000000: x".data ∧
        (toOrdinal 2024 1 1 + ((p.1 : Int) - 1) < minOrdinal ∨
          maxOrdinal < toOrdinal 2024 1 1 + ((p.1 : Int) - 1))) :=
  (claim_C6 "Day 4000000: x".data (some (toOrdinal 2024 1 1)) 0 0
    (by decide) (by decide)).1

/-- Helper for claim C8: congruence of serialization after timestamp
erasure. -/
theorem except_map_norm_ext {x y : Except PyError Calendar}
    (h : Except.map normStamps x = Except.map normStamps y) :
    Except.map (fun cal => toIcal (normStamps cal)) x =
      Except.map (fun cal => toIcal (normStamps cal)) y := by
  cases x with
  | error e =>
    cases y with
    | error e' => simpa [Except.map] using h
    | ok c => simp [Except.map] at h
  | ok c =>
    cases y with
    | error e' => simp [Except.map] at h
    | ok c' =>
      simp only [Except.map, Except.ok.injEq] at h ⊢
      rw [h]

/-- Claim C8: the converter is a pure function of its inputs and the
injected clock; once every event's generation timestamp is erased, the
serialized bytes do not depend on the clock at all when a start date is
supplied, and depend only on the current date when it is omitted. -/
theorem claim_C8 :
    (∀ (t : List Char) (d today₁ st₁ today₂ st₂ : Int),
        Except.map (fun cal => toIcal (normStamps cal))
            (generateCalendar t (some d) today₁ st₁) =
          Except.map (fun cal => toIcal (normStamps cal))
            (generateCalendar t (some d) today₂ st₂)) ∧
      (∀ (t : List Char) (today st₁ st₂ : Int),
        Except.map (fun cal => toIcal (normStamps cal))
            (generateCalendar t none today st₁) =
          Except.map (fun cal => toIcal (normStamps cal))
            (generateCalendar t none today st₂)) := by
  constructor
  · intro t d today₁ st₁ today₂ st₂
    have h := generateCalendar_stamp t (some d) today₁ st₁ st₂
    have h2 : generateCalendar t (some d) today₁ st₂ =
        generateCalendar t (some d) today₂ st₂ := rfl
    rw [h2] at h
    exact except_map_norm_ext h
  · intro t today st₁ st₂
    exact except_map_norm_ext (generateCalendar_stamp t none today st₁ st₂)
